import Mathlib

/-!
Shallow embedding of `src/python_qss/engine.py` (a quantum spacetime shogi
rule engine).  Pure data is translated to Lean structures; the mutating
methods of class `Game` become functions `Game → …` returning the updated
state.  Python objects are never aliased across the call boundaries we model
(every snapshot handed to `_execute` is a fresh clone), so each method is
translated as a pure function on values.  Boards are always 9×9 (constructed
so by `_initial_snapshot` and `_clone_snapshot`), hence index loops over
`range(9)` are rendered as structural maps over the board value.
-/

namespace QSS

/-- `Player` enum of engine.py. BLACK is the first player. -/
inductive Player where
  | black
  | white
deriving DecidableEq

/-- `Player.opposite`. -/
def Player.opposite : Player → Player
  | .black => .white
  | .white => .black

/-- `Player.forward`: −1 for black, +1 for white. -/
def Player.forward : Player → Int
  | .black => -1
  | .white => 1

/-- The closed 8-symbol piece-type alphabet `PIECE_TYPES`
(歩 fu, 香 kyousha, 桂 keima, 銀 gin, 金 kin, 飛 hisha, 角 kaku, 王 ou). -/
inductive PieceType where
  | fu
  | kyousha
  | keima
  | gin
  | kin
  | hisha
  | kaku
  | ou
deriving DecidableEq

/-- `PIECE_TYPES = ["歩", "香", "桂", "銀", "金", "飛", "角", "王"]`. -/
def PIECE_TYPES : List PieceType :=
  [.fu, .kyousha, .keima, .gin, .kin, .hisha, .kaku, .ou]

/-- `PIECE_LIMIT = {"王":1, "飛":1, "角":1, "金":2, "銀":2, "桂":2, "香":2, "歩":9}`. -/
def PIECE_LIMIT : PieceType → Nat
  | .ou => 1
  | .hisha => 1
  | .kaku => 1
  | .kin => 2
  | .gin => 2
  | .keima => 2
  | .kyousha => 2
  | .fu => 9

/-- Insertion order of the `PIECE_LIMIT` dict, i.e. the iteration order of
`PIECE_LIMIT.items()` in `_collapse_by_count`. -/
def limitOrder : List PieceType :=
  [.ou, .hisha, .kaku, .kin, .gin, .keima, .kyousha, .fu]

/-- `set(PIECE_TYPES)`: the full candidate set a fresh piece carries. -/
def fullCands : Finset PieceType := PIECE_TYPES.toFinset

/-- Dataclass `Piece`. `candidates` is a Python `set` of type symbols,
modelled as a `Finset`. -/
structure Piece where
  id : Nat
  owner : Player
  candidates : Finset PieceType
  promoted : Bool
deriving DecidableEq

/-- `Board = List[List[Optional[Piece]]]`, row-major: `board[y][x]`. -/
abbrev Board := List (List (Option Piece))

/-- The `hands` dict `Player → List[Piece]` (always exactly two keys). -/
structure Hands where
  black : List Piece
  white : List Piece
deriving DecidableEq

/-- `hands[pl]`. -/
def Hands.get : Hands → Player → List Piece
  | h, .black => h.black
  | h, .white => h.white

/-- `hands[pl] = l` (functional update). -/
def Hands.set : Hands → Player → List Piece → Hands
  | h, .black, l => { h with black := l }
  | h, .white, l => { h with white := l }

/-- Dataclass `Snapshot`. -/
structure Snapshot where
  board : Board
  hands : Hands
deriving DecidableEq

/-- `s.board[y][x]` (all call sites bounds-check `0 ≤ x,y < 9` first). -/
def getCell (b : Board) (x y : Int) : Option Piece :=
  match b.get? y.toNat with
  | some row => (row.get? x.toNat).join
  | none => none

/-- `s.board[y][x] = v`. `List.set` is a no-op out of range, which never
occurs after the engine's bounds checks. -/
def setCell (b : Board) (x y : Int) (v : Option Piece) : Board :=
  match b.get? y.toNat with
  | some row => b.set y.toNat (row.set x.toNat v)
  | none => b

/-- Dataclass `MovePlan`; `mode` is a free-form string ("move"/"drop" by
convention, but any value is accepted by the executor). -/
structure MovePlan where
  mode : String
  from_xy : Int × Int := (0, 0)
  to_xy : Int × Int := (0, 0)
  hand_index : Int := 0
  promote : Bool := false
  delta_w : Int := 0
  delta_t : Int := 0
deriving DecidableEq

/-- Dataclass `WorldLine`. -/
structure WorldLine where
  w : Int
  history : List Snapshot
  staged : Option MovePlan := none
  lost : Bool := false
deriving DecidableEq

/-- Dataclass `Settings` with its defaults. -/
structure Settings where
  max_worlds : Nat := 7
  max_time_jump : Nat := 5
  hand_mode : String := "per_world"
  check_attack_mode : String := "possible"
  time_direction_policy : String := "past_only"
deriving DecidableEq

def defaultSettings : Settings := {}

/-- The mutable state of class `Game`. `worlds` is the insertion-ordered
dict `Dict[int, WorldLine]` rendered as an association list with unique
keys. -/
structure Game where
  settings : Settings
  turn : Player
  message : String
  selected_world : Int
  next_id : Nat
  worlds : List (Int × WorldLine)
deriving DecidableEq

/-- `_is_linear_clear(dx, dy, fx, fy, src)`: every strictly intermediate
square of the x/y projection must be on-board and empty. -/
def isLinearClear (dx dy fx fy : Int) (src : Snapshot) : Bool :=
  let steps := max dx.natAbs dy.natAbs
  if steps ≤ 1 then true
  else
    let sx : Int := if dx == 0 then 0 else if dx > 0 then 1 else -1
    let sy : Int := if dy == 0 then 0 else if dy > 0 then 1 else -1
    (List.range' 1 (steps - 1)).all fun i =>
      let x := fx + sx * (i : Int)
      let y := fy + sy * (i : Int)
      decide (0 ≤ x) && decide (x < 9) && decide (0 ≤ y) && decide (y < 9) &&
        (getCell src.board x y).isNone

/-- `_type_can_move(t, owner, dx, dy, dw, dt, fx, fy, src)`. -/
def typeCanMove (st : Settings) (t : PieceType) (owner : Player)
    (dx dy dw dt fx fy : Int) (src : Snapshot) : Bool :=
  if st.time_direction_policy == "past_only" && decide (dt > 0) then false
  else if (t == .fu || t == .kin || t == .gin || t == .ou) && decide (2 ≤ dw.natAbs) then
    false
  else
    let f := owner.forward
    match t with
    | .ou => max (max dx.natAbs dy.natAbs) (max dw.natAbs dt.natAbs) == 1
    | .fu =>
        (dx, dy, dw, dt) == (0, f, 0, 0) || (dx, dy, dw, dt) == (0, 0, f, 0) ||
          (dx, dy, dw, dt) == (0, 0, 0, -1)
    | .kin =>
        (dx, dy, dw, dt) == (0, f, 0, 0) || (dx, dy, dw, dt) == (1, 0, 0, 0) ||
          (dx, dy, dw, dt) == (-1, 0, 0, 0) || (dx, dy, dw, dt) == (0, -f, 0, 0) ||
          (dx, dy, dw, dt) == (1, f, 0, 0) || (dx, dy, dw, dt) == (-1, f, 0, 0) ||
          (dx, dy, dw, dt) == (0, 0, f, 0) || (dx, dy, dw, dt) == (0, 0, 0, -1)
    | .gin =>
        (dx, dy, dw, dt) == (0, f, 0, 0) || (dx, dy, dw, dt) == (1, f, 0, 0) ||
          (dx, dy, dw, dt) == (-1, f, 0, 0) || (dx, dy, dw, dt) == (1, -f, 0, 0) ||
          (dx, dy, dw, dt) == (-1, -f, 0, 0) || (dx, dy, dw, dt) == (0, 0, f, 0) ||
          (dx, dy, dw, dt) == (0, 0, 0, -1)
    | .keima =>
        (dx, dy, dw, dt) == (1, 2 * f, 0, 0) || (dx, dy, dw, dt) == (-1, 2 * f, 0, 0) ||
          (dx, dy, dw, dt) == (1, 0, 2 * f, 0) || (dx, dy, dw, dt) == (-1, 0, 2 * f, 0) ||
          (dx, dy, dw, dt) == (1, 0, 0, -2) || (dx, dy, dw, dt) == (-1, 0, 0, -2)
    | .kyousha =>
        if !(isLinearClear dx dy fx fy src) then false
        else
          (dx == 0 && dw == 0 && dt == 0 && (decide (dy > 0) == decide (f > 0))) ||
            (dx == 0 && dy == 0 && dt == 0 && (decide (dw > 0) == decide (f > 0)))
    | .hisha =>
        if !(isLinearClear dx dy fx fy src) then false
        else [dx == 0, dy == 0, dw == 0, dt == 0].count true == 3
    | .kaku =>
        let nz := ([dx, dy, dw, dt].filter (fun v => v != 0)).map Int.natAbs
        if nz.length < 2 || !(nz.all (fun v => v == nz.headD 0)) then false
        else isLinearClear dx dy fx fy src

/-- `_double_pawn(s, file_x, owner)`: some square on file `file_x` holds a
piece of `owner` whose candidate set is exactly `{歩}`. -/
def doublePawn (s : Snapshot) (file_x : Int) (owner : Player) : Bool :=
  (List.range 9).any fun y =>
    match getCell s.board file_x (y : Int) with
    | some p => p.owner == owner && p.candidates == ({.fu} : Finset PieceType)
    | none => false

/-- The per-candidate keep/drop test of `_filter_drop_candidates`. -/
def keepDropCandidate (turn : Player) (x y : Int) (target : Snapshot)
    (c : PieceType) : Bool :=
  if c == .fu then
    !(doublePawn target x turn) &&
      !((turn == .black && y == 0) || (turn == .white && y == 8))
  else if c == .kyousha then
    !((turn == .black && y == 0) || (turn == .white && y == 8))
  else if c == .keima then
    !((turn == .black && decide (y ≤ 1)) || (turn == .white && decide (7 ≤ y)))
  else true

/-- `_filter_drop_candidates(cands, x, y, target)`. -/
def filterDropCandidates (turn : Player) (cands : Finset PieceType)
    (x y : Int) (target : Snapshot) : Finset PieceType :=
  cands.filter (fun c => keepDropCandidate turn x y target c = true)

/-- The per-commit usage counters dict `global_use : Dict[str, int]`
(`get(k, 0)` semantics: absent keys count 0). -/
def GlobalUse := PieceType → Nat

/-- The empty `global_use` dict. -/
def zeroUse : GlobalUse := fun _ => 0

/-- `for c in p.candidates: global_use[c] = global_use.get(c, 0) + 1`. -/
def addUse (u : GlobalUse) (cands : Finset PieceType) : GlobalUse :=
  fun k => if k ∈ cands then u k + 1 else u k

/-- `_execute(src_present, target, plan, branching, global_use)`.
The Python method mutates the two snapshot objects (always distinct,
freshly cloned objects at both call sites) and `global_use`; here it
returns their updated values, or the error string. Failure paths discard
the partially mutated clones at both call sites, so an error result
carries no state. -/
def execute (st : Settings) (turn : Player) (src target : Snapshot)
    (plan : MovePlan) (branching : Bool) (use : GlobalUse) :
    Except String (Snapshot × Snapshot × GlobalUse) :=
  let tx := plan.to_xy.1
  let ty := plan.to_xy.2
  if !(decide (0 ≤ tx) && decide (tx < 9) && decide (0 ≤ ty) && decide (ty < 9)) then
    .error "盤外"
  else if plan.mode == "drop" then
    if (getCell target.board tx ty).isSome then .error "打ち先占有"
    else
      let hand := src.hands.get turn
      if decide (plan.hand_index < 0) || decide ((hand.length : Int) ≤ plan.hand_index) then
        .error "持ち駒index不正"
      else
        match hand.get? plan.hand_index.toNat with
        | none => .error "持ち駒index不正"
        | some p0 =>
          let src' := { src with
            hands := src.hands.set turn (hand.eraseIdx plan.hand_index.toNat) }
          let p := { p0 with
            owner := turn
            candidates := filterDropCandidates turn p0.candidates tx ty target }
          if p.candidates = ∅ then .error "禁則で打てない"
          else
            let use' := if st.hand_mode == "global" then addUse use p.candidates else use
            .ok (src', { target with board := setCell target.board tx ty (some p) }, use')
  else
    let fx := plan.from_xy.1
    let fy := plan.from_xy.2
    if !(decide (0 ≤ fx) && decide (fx < 9) && decide (0 ≤ fy) && decide (fy < 9)) then
      .error "移動元盤外"
    else
      match getCell src.board fx fy with
      | none => .error "移動元空"
      | some piece =>
        if piece.owner ≠ turn then .error "自駒ではない"
        else
          let dst := getCell target.board tx ty
          if dst.map Piece.owner = some turn then .error "味方占有"
          else
            let dx := tx - fx
            let dy := ty - fy
            let filtered := piece.candidates.filter
              (fun c => typeCanMove st c piece.owner dx dy plan.delta_w plan.delta_t fx fy src = true)
            if filtered = ∅ then .error "候補なし"
            else
              let src' := { src with board := setCell src.board fx fy none }
              let moved : Piece := ⟨piece.id, piece.owner, filtered, plan.promote⟩
              let target1 := match dst with
                | some d =>
                  { target with
                    hands := target.hands.set turn
                      (target.hands.get turn ++
                        [Piece.mk d.id d.owner (d.candidates.erase .ou) d.promoted])
                    board := setCell target.board tx ty none }
                | none => target
              let target2 :=
                if !branching then { target1 with board := setCell target1.board fx fy none }
                else target1
              .ok (src', { target2 with board := setCell target2.board tx ty (some moved) }, use)

/-- `king_candidates(s, owner)`: all `(x, y)` whose square holds a piece of
`owner` with 王 among its candidates, in row-major scan order. -/
def kingCandidates (s : Snapshot) (owner : Player) : List (Int × Int) :=
  (List.range 9).flatMap fun y =>
    (List.range 9).filterMap fun x =>
      match getCell s.board (x : Int) (y : Int) with
      | some p =>
        if p.owner = owner ∧ .ou ∈ p.candidates then some ((x : Int), (y : Int)) else none
      | none => none

/-- The `ids` list one `(pl, kind)` round of `_collapse_by_count` collects:
board pieces of `pl` still carrying `kind`, then `hands[pl]` pieces still
carrying `kind` (the hand scan does not test the piece's own `owner`
field). -/
def collectIds (s : Snapshot) (pl : Player) (kind : PieceType) : List Nat :=
  (s.board.flatMap fun row =>
    row.filterMap fun c =>
      match c with
      | some p => if p.owner = pl ∧ kind ∈ p.candidates then some p.id else none
      | none => none) ++
  ((s.hands.get pl).filterMap fun p => if kind ∈ p.candidates then some p.id else none)

/-- The board rewrite of one forcing round: every piece of `pl` whose id is
in `idset` and whose candidates differ from `{kind}` is forced to `{kind}`. -/
def forceBoard (b : Board) (pl : Player) (kind : PieceType) (idset : List Nat) : Board :=
  b.map fun row =>
    row.map fun c =>
      match c with
      | some p =>
        if p.owner = pl ∧ p.id ∈ idset ∧ p.candidates ≠ ({kind} : Finset PieceType) then
          some { p with candidates := {kind} }
        else some p
      | none => none

/-- The `hands[pl]` rewrite of one forcing round (no owner test here). -/
def forceHand (l : List Piece) (kind : PieceType) (idset : List Nat) : List Piece :=
  l.map fun p =>
    if p.id ∈ idset ∧ p.candidates ≠ ({kind} : Finset PieceType) then
      { p with candidates := {kind} }
    else p

/-- One `(pl, kind)` round of the body of `_collapse_by_count`: collect the
ids, and force exactly when their number equals `PIECE_LIMIT[kind]`. -/
def collapseStep (s : Snapshot) (pl : Player) (kind : PieceType) : Snapshot :=
  let ids := collectIds s pl kind
  if ids.length = PIECE_LIMIT kind then
    { board := forceBoard s.board pl kind ids
      hands := s.hands.set pl (forceHand (s.hands.get pl) kind ids) }
  else s

/-- One full pass of `_collapse_by_count`'s `while` body:
`for pl in [BLACK, WHITE]: for kind, lim in PIECE_LIMIT.items(): …`. -/
def collapsePass (s : Snapshot) : Snapshot :=
  (([Player.black, Player.white].flatMap fun pl => limitOrder.map fun k => (pl, k)).foldl
    (fun acc pk => collapseStep acc pk.1 pk.2) s)

/-- `_collapse_by_count(s)`: repeat `collapsePass` until a pass changes
nothing.  A forcing round only rewrites a candidate set that differs from
the forced singleton and never restores an earlier value inside the same
pass, so Python's `changed` flag is set during a pass iff the pass's output
differs from its input; the loop is therefore the fixpoint iteration below.
Python iterates unboundedly; each changing pass strictly shrinks the
(finite) total size of all candidate sets, so the recursion is rendered
with a fuel bound that no run can exhaust. -/
def collapseByCount : Nat → Snapshot → Snapshot
  | 0, s => s
  | fuel + 1, s =>
    let s' := collapsePass s
    if s' = s then s else collapseByCount fuel s'

/-- Fuel for `collapseByCount`; a pass over a 9×9 board with both hands can
change at most `8 · (81 + |hands|)` candidate entries, far below this. -/
def collapseFuel : Nat := 10000

/-- An all-`None` 9×9 board. -/
def emptyBoard : Board :=
  List.replicate 9 (List.replicate 9 (none : Option Piece))

/-- Fallback snapshot for list accesses the engine has already
bounds-checked (never actually read). -/
def emptySnapshot : Snapshot := ⟨emptyBoard, ⟨[], []⟩⟩

/-- `_initial_snapshot`: rows 0–2 white, rows 6–8 black, every piece fresh
with the full candidate set.  `_new_piece` draws ids from the counter
`_next_id` starting at 1, in the constructor's row-major creation order:
white pieces get ids 1–27, black pieces 28–54. -/
def initialSnapshot : Snapshot :=
  { board :=
      (List.range 9).map fun y =>
        (List.range 9).map fun x =>
          if y < 3 then some ⟨9 * y + x + 1, .white, fullCands, false⟩
          else if 6 ≤ y then some ⟨27 + 9 * (y - 6) + x + 1, .black, fullCands, false⟩
          else none
    hands := ⟨[], []⟩ }

/-- `Game.__init__` (with the default settings). -/
def mkGame : Game :=
  { settings := defaultSettings
    turn := .black
    message := ""
    selected_world := 0
    next_id := 55
    worlds := [(0, ⟨0, [initialSnapshot], none, false⟩)] }

/-- Fallback for dict accesses at keys the engine guarantees to exist. -/
def defaultWorld : WorldLine := ⟨0, [emptySnapshot], none, false⟩

/-- `self.worlds[w]` (keys are unique in a dict). -/
def getWorld (g : Game) (w : Int) : WorldLine :=
  ((g.worlds.find? fun e => e.1 == w).map Prod.snd).getD defaultWorld

/-- `w in self.worlds`. -/
def hasWorld (g : Game) (w : Int) : Bool :=
  g.worlds.any fun e => e.1 == w

/-- `self.worlds[w] = wl` at an existing key `w`. -/
def updateWorld (ws : List (Int × WorldLine)) (w : Int) (wl : WorldLine) :
    List (Int × WorldLine) :=
  ws.map fun e => if e.1 == w then (w, wl) else e

/-- `wl.history[-1]` (`history` is never empty). -/
def presentOf (wl : WorldLine) : Snapshot :=
  wl.history.getLastD emptySnapshot

/-- `Game.present(w)`. -/
def Game.presentSnap (g : Game) (w : Int) : Snapshot :=
  presentOf (getWorld g w)

/-- `Game.stage(w, plan)`: records the plan iff the world exists. -/
def stage (g : Game) (w : Int) (plan : MovePlan) : Game :=
  if hasWorld g w then
    { g with worlds := updateWorld g.worlds w { getWorld g w with staged := some plan } }
  else g

/-- `Game.clear_staged()`. -/
def clearStaged (g : Game) : Game :=
  { g with worlds := g.worlds.map fun e => (e.1, { e.2 with staged := none }) }

/-- `Game._apply_one_world(w, plan, global_use)`.  On success returns the
game with the world's history extended (and a branched world registered);
on failure the game is untouched (the only mutations before an error are to
the discarded clones). -/
def applyOneWorld (g : Game) (w : Int) (plan : MovePlan) (use : GlobalUse) :
    Except String (Game × GlobalUse) :=
  let wl := getWorld g w
  let present_t : Int := (wl.history.length : Int) - 1
  if g.settings.time_direction_policy == "past_only" && decide (plan.delta_t > 0) then
    .error "未来移動不可"
  else if decide (g.settings.max_time_jump < plan.delta_t.natAbs) then
    .error "時間逆行幅オーバー"
  else
    let t_base := present_t + plan.delta_t
    if decide (t_base < 0) || decide ((wl.history.length : Int) ≤ t_base) then
      .error "履歴範囲外"
    else
      let branching := plan.delta_w ≠ 0 ∨ plan.delta_t < 0
      if branching then
        let w_new := w + plan.delta_w
        if decide (g.settings.max_worlds ≤ g.worlds.length) then .error "MAX_WORLDS"
        else if hasWorld g w_new then .error "world衝突"
        else
          let from_present := presentOf wl
          let target := (wl.history.get? t_base.toNat).getD emptySnapshot
          match execute g.settings g.turn from_present target plan true use with
          | .error e => .error e
          | .ok (fp', tg', use') =>
            .ok ({ g with worlds :=
                    updateWorld g.worlds w { wl with history := wl.history ++ [fp'] } ++
                      [(w_new, ⟨w_new, [tg'], none, false⟩)] },
                 use')
      else
        let cur := presentOf wl
        let dummy := cur
        match execute g.settings g.turn cur dummy plan false use with
        | .error e => .error e
        | .ok (cur', _dummy', use') =>
          .ok ({ g with worlds :=
                  updateWorld g.worlds w { wl with history := wl.history ++ [cur'] } },
               use')

/-- The commit loop `for w, plan in staged: …`, threading the game and the
usage counters; an error result carries the partially updated game exactly
as the Python loop leaves `self` mutated when it returns `False`. -/
def applyLoop (g : Game) : List (Int × MovePlan) → GlobalUse →
    Except (Game × String) (Game × GlobalUse)
  | [], use => .ok (g, use)
  | (w, plan) :: rest, use =>
    match applyOneWorld g w plan use with
    | .error e => .error (g, e)
    | .ok (g', use') => applyLoop g' rest use'

/-- `sorted(self.worlds.keys())`. -/
def sortedWorldIds (g : Game) : List Int :=
  (g.worlds.map Prod.fst).insertionSort (· ≤ ·)

/-- The rejection message of an unstaged world. -/
def missingInputMsg : String := "未入力の世界線があります"

/-- Default used for `Option.getD` on plans the commit loop has already
checked to be present. -/
def defaultPlan : MovePlan := { mode := "move" }

/-- The Japanese symbol of a piece type (used in the global-hand message). -/
def pieceName : PieceType → String
  | .fu => "歩"
  | .kyousha => "香"
  | .keima => "桂"
  | .gin => "銀"
  | .kin => "金"
  | .hisha => "飛"
  | .kaku => "角"
  | .ou => "王"

/-- The `total` dict of `commit_turn`'s global-hand check: per type, the
number of pieces in the active player's hand of every world's present
snapshot whose candidates contain the type. -/
def globalHandTotal (g : Game) : PieceType → Nat := fun k =>
  (g.worlds.map fun e =>
    ((presentOf e.2).hands.get g.turn).countP fun p => k ∈ p.candidates).sum

/-- `Game.commit_turn()`.  Returns the `bool` result and the updated game.
The iteration of `global_use.items()` in the shortfall check is rendered
over `PIECE_TYPES` (absent keys count 0 and can never violate `0 > total`);
Python's iteration order over the `set`-populated dict is unspecified, so
the reported type symbol in the message is the first violator in
`PIECE_TYPES` order. -/
def commitTurn (g : Game) : Bool × Game :=
  let wids := sortedWorldIds g
  if wids.any (fun w => (getWorld g w).staged.isNone) then
    (false, { g with message := missingInputMsg })
  else
    let staged := wids.map fun w => (w, (getWorld g w).staged.getD defaultPlan)
    match applyLoop g staged zeroUse with
    | .error (g', err) => (false, { g' with message := "不合法手: " ++ err })
    | .ok (g', use) =>
      let shortfall :=
        if g'.settings.hand_mode == "global" then
          PIECE_TYPES.find? fun k => decide (globalHandTotal g' k < use k)
        else none
      match shortfall with
      | some k => (false, { g' with message := "global hand不足: " ++ pieceName k })
      | none =>
        let worlds2 := g'.worlds.map fun e =>
          let collapsed := collapseByCount collapseFuel (presentOf e.2)
          (e.1, { e.2 with
            history := e.2.history.dropLast ++ [collapsed]
            staged := none
            lost := (kingCandidates collapsed .black).length == 0 ||
                      (kingCandidates collapsed .white).length == 0 })
        (true, { g' with
          worlds := worlds2
          turn := g'.turn.opposite
          message := "同時確定しました" })

/-! ### Derived observations used by the verification -/

/-- The pieces sitting on a snapshot's board squares, in row-major order. -/
def boardPieces (s : Snapshot) : List Piece :=
  s.board.flatMap fun row => row.filterMap id

/-- The ids of a snapshot's live pieces: board squares, then both hands. -/
def snapIds (s : Snapshot) : List Nat :=
  (boardPieces s).map Piece.id ++ s.hands.black.map Piece.id ++ s.hands.white.map Piece.id

/-- The ids of all live pieces over every world's present snapshot. -/
def gameIds (g : Game) : List Nat :=
  g.worlds.flatMap fun e => snapIds (presentOf e.2)

/-- Modelled from the spec: the game-wide count §4.5 describes — for an
(owner, type) pair, the number of pieces whose candidates still contain the
type, summed over that owner's board squares of every world's present
snapshot and that owner's hand in every world.  (The source's
`_collapse_by_count` instead counts within one snapshot; this definition
exists to compare the two.) -/
def specGameWideCount (g : Game) (owner : Player) (t : PieceType) : Nat :=
  (g.worlds.map fun e =>
    let s := presentOf e.2
    (boardPieces s).countP (fun p => p.owner == owner && decide (t ∈ p.candidates)) +
      (s.hands.get owner).countP (fun p => decide (t ∈ p.candidates))).sum

/-- Every staged plan is non-branching (`delta_w = 0` and `delta_t ≥ 0`),
so `_apply_one_world` can only take its non-branching arm for it. -/
def nonBranchingStaged (g : Game) : Bool :=
  g.worlds.all fun e =>
    match e.2.staged with
    | some p => p.delta_w == 0 && decide (0 ≤ p.delta_t)
    | none => true

/-- A 9×9 board value (the shape every engine-made board has). -/
def boardWF (b : Board) : Prop :=
  b.length = 9 ∧ ∀ row ∈ b, row.length = 9

instance : DecidablePred boardWF := fun b => by
  unfold boardWF; infer_instance

/-! ### Concrete inputs used by the claim theorems -/

/-- A plain one-step-forward move of the first player: (4,6) → (4,5). -/
def plan65 : MovePlan := { mode := "move", from_xy := (4, 6), to_xy := (4, 5) }

/-- Scenario B's literal move: (4,8) → (4,7). -/
def plan87 : MovePlan := { mode := "move", from_xy := (4, 8), to_xy := (4, 7) }

/-- An off-board (hence always-rejected) move. -/
def planOff : MovePlan := { mode := "move", from_xy := (4, 6), to_xy := (9, 0) }

/-- A branching move: (4,6) → (4,5) into world delta −1. -/
def planBr : MovePlan := { mode := "move", from_xy := (4, 6), to_xy := (4, 5), delta_w := -1 }

/-- The fresh game with `plan65` staged for its single world. -/
def gPlain : Game := stage mkGame 0 plan65

/-- The fresh game with the branching `planBr` staged. -/
def gBranch : Game := stage mkGame 0 planBr

/-- A reachable-shape two-world position (worlds 0 and 1 on the initial
snapshot), with a valid plan staged for world 0 and an off-board plan for
world 1. -/
def game2 : Game :=
  { settings := defaultSettings, turn := .black, message := "", selected_world := 0
    next_id := 55
    worlds := [(0, ⟨0, [initialSnapshot], some plan65, false⟩),
               (1, ⟨1, [initialSnapshot], some planOff, false⟩)] }

/-- Board with a black `{歩, 王}` piece at (0,0) and a fresh black piece at
(4,6). -/
def snapA : Snapshot :=
  ⟨setCell (setCell emptyBoard 0 0 (some ⟨1, .black, ({PieceType.fu, .ou} : Finset PieceType), false⟩))
      4 6 (some ⟨2, .black, fullCands, false⟩), ⟨[], []⟩⟩

/-- Same shape as `snapA` with fresh ids. -/
def snapB : Snapshot :=
  ⟨setCell (setCell emptyBoard 0 0 (some ⟨3, .black, ({PieceType.fu, .ou} : Finset PieceType), false⟩))
      4 6 (some ⟨4, .black, fullCands, false⟩), ⟨[], []⟩⟩

/-- Two worlds, each holding one black `{歩, 王}` piece, both staged with
`plan65`: after commit each world's (black, 王) count is 1 in isolation,
but 2 across the game. -/
def game3 : Game :=
  { settings := defaultSettings, turn := .black, message := "", selected_world := 0
    next_id := 5
    worlds := [(0, ⟨0, [snapA], some plan65, false⟩),
               (1, ⟨1, [snapB], some plan65, false⟩)] }

/-- Board with a black mover at (4,4) facing a promoted white `{歩, 金}`
piece at (4,3). -/
def snap7 : Snapshot :=
  ⟨setCell (setCell emptyBoard 4 4 (some ⟨1, .black, fullCands, false⟩))
      4 3 (some ⟨2, .white, ({PieceType.fu, PieceType.kin} : Finset PieceType), true⟩), ⟨[], []⟩⟩

/-- The capturing move (4,4) → (4,3). -/
def plan43 : MovePlan := { mode := "move", from_xy := (4, 4), to_xy := (4, 3) }

/-- `_execute` run on the capture position `snap7` (non-branching clone
pair). -/
def exec7 : Except String (Snapshot × Snapshot × GlobalUse) :=
  execute defaultSettings .black snap7 snap7 plan43 false zeroUse

/-- Its output (the run succeeds). -/
def out7 : Snapshot × Snapshot × GlobalUse :=
  exec7.toOption.getD (emptySnapshot, emptySnapshot, zeroUse)

/-- `_execute` run on the initial position's `plan65` (non-branching clone
pair). -/
def exec65 : Except String (Snapshot × Snapshot × GlobalUse) :=
  execute defaultSettings .black initialSnapshot initialSnapshot plan65 false zeroUse

/-- Its output (the run succeeds). -/
def out65 : Snapshot × Snapshot × GlobalUse :=
  exec65.toOption.getD (emptySnapshot, emptySnapshot, zeroUse)

/-- The piece at (4,6) of the initial snapshot. -/
def piece65 : Piece := ⟨32, .black, fullCands, false⟩

/-- The candidate set `plan65` narrows `piece65` to: the types whose
displacement table allows (0,−1,0,0) for black. -/
def cands65 : Finset PieceType :=
  {PieceType.fu, PieceType.kyousha, PieceType.gin, PieceType.kin, PieceType.hisha, PieceType.ou}

/-- A plan whose mode string is neither "move" nor "drop". -/
def planWeird : MovePlan := { mode := "teleport", from_xy := (4, 6), to_xy := (4, 5) }

/-- The game a commit-loop result leaves behind (the partially updated
`self` on an error, the fully updated one on success). -/
def loopGame : Except (Game × String) (Game × GlobalUse) → Game
  | .error (g, _) => g
  | .ok (g, _) => g

/-- One piece's rewrite in a forcing round of `_collapse_by_count`, as a
function (`forceBoard` is the cell-wise map of this). -/
def forcePiece (pl : Player) (kind : PieceType) (ids : List Nat) (p : Piece) : Piece :=
  if p.owner = pl ∧ p.id ∈ ids ∧ p.candidates ≠ ({kind} : Finset PieceType) then
    { p with candidates := {kind} }
  else p

/-- `gameIds` as a function of the worlds association list. -/
def worldsIds (ws : List (Int × WorldLine)) : List Nat :=
  ws.flatMap fun e => snapIds (presentOf e.2)

set_option maxRecDepth 1000000
set_option maxHeartbeats 4000000

/-! ### Helper lemmas -/

theorem filterMap_match_eq {β : Type} (f : Piece → Option β) (row : List (Option Piece)) :
    (row.filterMap fun c => match c with | some p => f p | none => none) =
      (row.filterMap id).filterMap f := by
  induction row with
  | nil => rfl
  | cons c t ih =>
    cases c with
    | none => simpa using ih
    | some a => simp [List.filterMap_cons, ih]

theorem flatMap_filterMap_comm {β : Type} (f : Piece → Option β) (b : Board) :
    (b.flatMap fun row => (row.filterMap id).filterMap f) =
      (b.flatMap fun row => row.filterMap id).filterMap f := by
  induction b with
  | nil => rfl
  | cons r t ih => simp [List.flatMap_cons, List.filterMap_append, ih]

/-- The id list collected by one `(pl, kind)` round, re-read over the flat
piece lists. -/
theorem collectIds_eq (s : Snapshot) (pl : Player) (kind : PieceType) :
    collectIds s pl kind =
      (boardPieces s).filterMap
        (fun p => if p.owner = pl ∧ kind ∈ p.candidates then some p.id else none) ++
      (s.hands.get pl).filterMap
        (fun p => if kind ∈ p.candidates then some p.id else none) := by
  unfold collectIds boardPieces
  congr 1
  rw [← flatMap_filterMap_comm]
  exact List.flatMap_congr fun row _ => filterMap_match_eq _ row

theorem mem_collectIds_of_board {s : Snapshot} {pl kind} {p : Piece}
    (hp : p ∈ boardPieces s) (h1 : p.owner = pl) (h2 : kind ∈ p.candidates) :
    p.id ∈ collectIds s pl kind := by
  rw [collectIds_eq]
  exact List.mem_append_left _
    (List.mem_filterMap.mpr ⟨p, hp, by simp [h1, h2]⟩)

theorem mem_collectIds_of_hand {s : Snapshot} {pl kind} {p : Piece}
    (hp : p ∈ s.hands.get pl) (h2 : kind ∈ p.candidates) :
    p.id ∈ collectIds s pl kind := by
  rw [collectIds_eq]
  exact List.mem_append_right _
    (List.mem_filterMap.mpr ⟨p, hp, by simp [h2]⟩)

theorem Hands.get_set_self (h : Hands) (pl : Player) (l : List Piece) :
    (h.set pl l).get pl = l := by
  cases pl <;> rfl

theorem boardPieces_forceBoard (b : Board) (hd hd' : Hands) (pl kind ids) :
    boardPieces ⟨forceBoard b pl kind ids, hd⟩ =
      (boardPieces ⟨b, hd'⟩).map (forcePiece pl kind ids) := by
  show (forceBoard b pl kind ids).flatMap _ = (b.flatMap _).map _
  induction b with
  | nil => rfl
  | cons r t ih =>
    simp only [forceBoard, List.map_cons, List.flatMap_cons, List.map_append] at ih ⊢
    rw [ih]
    congr 1
    induction r with
    | nil => rfl
    | cons c rt ihr =>
      cases c with
      | none => simpa using ihr
      | some a =>
        by_cases hc : a.owner = pl ∧ a.id ∈ ids ∧ a.candidates ≠ ({kind} : Finset PieceType)
        · simp [List.filterMap_cons, forcePiece, hc, ihr]
        · simp [List.filterMap_cons, forcePiece, hc, ihr]

theorem length_filterMap_le_countP {α β : Type} (f : α → Option β) (q : α → Bool)
    (h : ∀ a, (f a).isSome → q a = true) : ∀ l : List α, (l.filterMap f).length ≤ l.countP q := by
  intro l
  induction l with
  | nil => simp
  | cons a t ih =>
    rw [List.filterMap_cons, List.countP_cons]
    cases hfa : f a with
    | none => exact ih.trans (Nat.le_add_right _ _)
    | some b =>
      have := h a (by rw [hfa]; rfl)
      simp only [this, if_true, List.length_cons]
      omega

theorem boardWF_setCell {b : Board} (x y : Int) (v : Option Piece) (hwf : boardWF b) :
    boardWF (setCell b x y v) := by
  unfold setCell
  cases hrow : b.get? y.toNat with
  | none => exact hwf
  | some row =>
    obtain ⟨hlen, hrows⟩ := hwf
    refine ⟨by simpa using hlen, fun r hr => ?_⟩
    rcases List.mem_or_eq_of_mem_set hr with h | h
    · exact hrows r h
    · subst h
      rw [List.length_set]
      exact hrows row (List.get?_mem hrow)

theorem getCell_setCell_self {b : Board} {x y : Int} (v : Option Piece) (hwf : boardWF b)
    (hx0 : 0 ≤ x) (hx : x < 9) (hy0 : 0 ≤ y) (hy : y < 9) :
    getCell (setCell b x y v) x y = v := by
  obtain ⟨hlen, hrows⟩ := hwf
  have hyn : y.toNat < b.length := by omega
  cases hrow : b.get? y.toNat with
  | none =>
    rw [List.get?_eq_none] at hrow
    omega
  | some row =>
    have hxr : x.toNat < row.length := by
      rw [hrows row (List.get?_mem hrow)]
      omega
    unfold setCell getCell
    rw [hrow]
    rw [List.get?_set_eq_of_lt _ (by simpa using hyn)]
    show ((row.set x.toNat v).get? x.toNat).join = v
    rw [List.get?_set_eq_of_lt _ hxr]
    rfl

theorem find?_key_of_mem {ws : List (Int × WorldLine)} {w : Int} {wl : WorldLine}
    (hnd : (ws.map Prod.fst).Nodup) (hmem : (w, wl) ∈ ws) :
    ws.find? (fun e => e.1 == w) = some (w, wl) := by
  induction ws with
  | nil => cases hmem
  | cons a t ih =>
    rw [List.map_cons, List.nodup_cons] at hnd
    obtain ⟨hna, hnd'⟩ := hnd
    rcases List.mem_cons.mp hmem with h | h
    · subst h
      simp [List.find?]
    · have ha : a.1 ≠ w := by
        intro hq
        exact hna (hq ▸ List.mem_map_of_mem Prod.fst h)
      have ha' : (a.1 == w) = false := beq_eq_false_iff_ne.mpr ha
      simp only [List.find?, ha']
      exact ih hnd' h

theorem getWorld_of_mem {g : Game} {w : Int} {wl : WorldLine}
    (hnd : (g.worlds.map Prod.fst).Nodup) (hmem : (w, wl) ∈ g.worlds) :
    getWorld g w = wl := by
  unfold getWorld
  rw [find?_key_of_mem hnd hmem]
  rfl

theorem forcePiece_id (pl kind ids) (p : Piece) : (forcePiece pl kind ids p).id = p.id := by
  unfold forcePiece
  split <;> rfl

theorem forceHand_map_id (l : List Piece) (kind ids) :
    (forceHand l kind ids).map Piece.id = l.map Piece.id := by
  unfold forceHand
  rw [List.map_map]
  apply List.map_congr_left
  intro p _
  show (if p.id ∈ ids ∧ p.candidates ≠ ({kind} : Finset PieceType) then
      ({ p with candidates := {kind} } : Piece) else p).id = p.id
  split <;> rfl

theorem snapIds_collapseStep (s : Snapshot) (pl : Player) (kind : PieceType) :
    snapIds (collapseStep s pl kind) = snapIds s := by
  simp only [collapseStep]
  split
  · show snapIds ⟨forceBoard s.board pl kind _, s.hands.set pl (forceHand (s.hands.get pl) kind _)⟩ = snapIds s
    unfold snapIds
    rw [boardPieces_forceBoard s.board _ s.hands pl kind _]
    rw [List.map_map]
    have hbid : (boardPieces ⟨s.board, s.hands⟩).map (Piece.id ∘ forcePiece pl kind (collectIds s pl kind)) =
        (boardPieces s).map Piece.id := by
      apply List.map_congr_left
      intro p _
      exact forcePiece_id pl kind _ p
    rw [hbid]
    cases pl with
    | black =>
      show _ ++ (forceHand s.hands.black kind _).map Piece.id ++ s.hands.white.map Piece.id = _
      rw [forceHand_map_id]
    | white =>
      show _ ++ s.hands.black.map Piece.id ++ (forceHand s.hands.white kind _).map Piece.id = _
      rw [forceHand_map_id]
  · rfl

theorem snapIds_foldl_collapseStep (l : List (Player × PieceType)) (s : Snapshot) :
    snapIds (l.foldl (fun acc pk => collapseStep acc pk.1 pk.2) s) = snapIds s := by
  induction l generalizing s with
  | nil => rfl
  | cons pk t ih =>
    rw [List.foldl_cons, ih, snapIds_collapseStep]

theorem snapIds_collapsePass (s : Snapshot) : snapIds (collapsePass s) = snapIds s :=
  snapIds_foldl_collapseStep _ s

theorem snapIds_collapseByCount (n : Nat) (s : Snapshot) :
    snapIds (collapseByCount n s) = snapIds s := by
  induction n generalizing s with
  | zero => rfl
  | succ m ih =>
    show snapIds (if collapsePass s = s then s else collapseByCount m (collapsePass s)) = snapIds s
    split
    · rfl
    · rw [ih, snapIds_collapsePass]

theorem getLastD_append_single {α : Type} (l : List α) (a d : α) :
    (l ++ [a]).getLastD d = a := by
  induction l generalizing d with
  | nil => rfl
  | cons b t ih =>
    rw [List.cons_append, List.getLastD_cons]
    exact ih b

theorem presentOf_append (wl : WorldLine) (s : Snapshot) :
    presentOf { wl with history := wl.history ++ [s] } = s := by
  unfold presentOf
  exact getLastD_append_single _ _ _

theorem set_none_filterMap_sublist {α : Type} (l : List (Option α)) (i : Nat) :
    ((l.set i none).filterMap id).Sublist (l.filterMap id) := by
  induction l generalizing i with
  | nil => simp
  | cons c t ih =>
    cases i with
    | zero =>
      cases c with
      | none => simp [List.set]
      | some a =>
        simp only [List.set, List.filterMap_cons, id]
        exact List.sublist_cons_self a _
    | succ n =>
      cases c with
      | none =>
        simp only [List.set, List.filterMap_cons, id]
        exact ih n
      | some a =>
        simp only [List.set, List.filterMap_cons, id]
        exact (ih n).cons₂ a

theorem flatMap_set_sublist {α β : Type} (f : α → List β) (b : List α) (j : Nat) (r' : α)
    (h : ∀ r, b.get? j = some r → (f r').Sublist (f r)) :
    ((b.set j r').flatMap f).Sublist (b.flatMap f) := by
  induction b generalizing j with
  | nil => simp
  | cons r t ih =>
    cases j with
    | zero =>
      simp only [List.set, List.flatMap_cons]
      exact (h r rfl).append (List.Sublist.refl _)
    | succ n =>
      simp only [List.set, List.flatMap_cons]
      exact (List.Sublist.refl (f r)).append (ih n fun r hr => h r hr)

theorem snapIds_board_set_none (s : Snapshot) (x y : Int) :
    (snapIds { s with board := setCell s.board x y none }).Sublist (snapIds s) := by
  unfold snapIds
  refine ((?_ : (boardPieces _).map Piece.id |>.Sublist ((boardPieces s).map Piece.id)).append
    (List.Sublist.refl _)).append (List.Sublist.refl _)
  apply List.Sublist.map
  show ((setCell s.board x y none).flatMap _).Sublist (s.board.flatMap _)
  unfold setCell
  cases hrow : s.board.get? y.toNat with
  | none => exact List.Sublist.refl _
  | some row =>
    apply flatMap_set_sublist
    intro r hr
    rw [hrow] at hr
    injection hr with hr
    subst hr
    exact set_none_filterMap_sublist _ x.toNat

theorem snapIds_hand_erase (s : Snapshot) (pl : Player) (i : Nat) :
    (snapIds { s with hands := s.hands.set pl ((s.hands.get pl).eraseIdx i) }).Sublist
      (snapIds s) := by
  cases pl with
  | black =>
    show ((boardPieces s).map Piece.id ++ (s.hands.black.eraseIdx i).map Piece.id ++
        s.hands.white.map Piece.id).Sublist _
    exact ((List.Sublist.refl _).append ((List.eraseIdx_sublist _ i).map Piece.id)).append
      (List.Sublist.refl _)
  | white =>
    show ((boardPieces s).map Piece.id ++ s.hands.black.map Piece.id ++
        (s.hands.white.eraseIdx i).map Piece.id).Sublist _
    exact ((List.Sublist.refl _).append (List.Sublist.refl _)).append
      ((List.eraseIdx_sublist _ i).map Piece.id)

/-- A successful `_execute` only removes pieces from the source snapshot
(the origin square for a move, the popped hand slot for a drop). -/
theorem execute_ok_src (st : Settings) (turn : Player) (src target : Snapshot)
    (plan : MovePlan) (branching : Bool) (use : GlobalUse)
    (out : Snapshot × Snapshot × GlobalUse)
    (hex : execute st turn src target plan branching use = .ok out) :
    (snapIds out.1).Sublist (snapIds src) := by
  simp only [execute] at hex
  by_cases htb : (!(decide (0 ≤ plan.to_xy.1) && decide (plan.to_xy.1 < 9) &&
      decide (0 ≤ plan.to_xy.2) && decide (plan.to_xy.2 < 9))) = true
  · rw [if_pos htb] at hex
    exact Except.noConfusion hex
  rw [if_neg htb] at hex
  by_cases hm : (plan.mode == "drop") = true
  · rw [if_pos hm] at hex
    repeat
      first
      | exact Except.noConfusion hex
      | split at hex
    all_goals
      injection hex with hout
      subst hout
      exact snapIds_hand_erase src turn _
  · rw [if_neg hm] at hex
    by_cases hfb : (!(decide (0 ≤ plan.from_xy.1) && decide (plan.from_xy.1 < 9) &&
        decide (0 ≤ plan.from_xy.2) && decide (plan.from_xy.2 < 9))) = true
    · rw [if_pos hfb] at hex
      exact Except.noConfusion hex
    · rw [if_neg hfb] at hex
      cases hp : getCell src.board plan.from_xy.1 plan.from_xy.2 with
      | none =>
        rw [hp] at hex
        exact Except.noConfusion hex
      | some piece =>
        rw [hp] at hex
        repeat
          first
          | exact Except.noConfusion hex
          | split at hex
        all_goals
          injection hex with hout
          subst hout
          exact snapIds_board_set_none src _ _

theorem updateWorld_map_fst (ws : List (Int × WorldLine)) (w : Int) (wl : WorldLine) :
    (updateWorld ws w wl).map Prod.fst = ws.map Prod.fst := by
  unfold updateWorld
  rw [List.map_map]
  apply List.map_congr_left
  intro e _
  by_cases hb : (e.1 == w) = true
  · have : e.1 = w := by simpa using hb
    simp [Function.comp, hb, this]
  · simp [Function.comp, hb]

theorem updateWorld_not_mem (ws : List (Int × WorldLine)) (w : Int) (wl : WorldLine)
    (h : w ∉ ws.map Prod.fst) : updateWorld ws w wl = ws := by
  unfold updateWorld
  conv_rhs => rw [← List.map_id ws]
  apply List.map_congr_left
  intro e he
  have : e.1 ≠ w := fun hq => h (hq ▸ List.mem_map_of_mem Prod.fst he)
  simp [beq_eq_false_iff_ne.mpr this]

theorem worldsIds_update_sublist (ws : List (Int × WorldLine)) (w : Int) (newwl : WorldLine)
    (hnd : (ws.map Prod.fst).Nodup)
    (h : ∀ wl, (w, wl) ∈ ws → (snapIds (presentOf newwl)).Sublist (snapIds (presentOf wl))) :
    (worldsIds (updateWorld ws w newwl)).Sublist (worldsIds ws) := by
  induction ws with
  | nil => exact List.Sublist.refl _
  | cons e t ih =>
    rw [List.map_cons, List.nodup_cons] at hnd
    obtain ⟨hne, hnd'⟩ := hnd
    show worldsIds ((if e.1 == w then (w, newwl) else e) :: updateWorld t w newwl) |>.Sublist _
    by_cases hb : (e.1 == w) = true
    · have hew : e.1 = w := by simpa using hb
      rw [if_pos hb, updateWorld_not_mem t w newwl (hew ▸ hne)]
      show (snapIds (presentOf newwl) ++ worldsIds t).Sublist (snapIds (presentOf e.2) ++ worldsIds t)
      refine List.Sublist.append ?_ (List.Sublist.refl _)
      exact h e.2 (by rw [← hew, Prod.mk.eta]; exact List.mem_cons_self e t)
    · rw [if_neg hb]
      show (snapIds (presentOf e.2) ++ worldsIds (updateWorld t w newwl)).Sublist
        (snapIds (presentOf e.2) ++ worldsIds t)
      exact List.Sublist.append (List.Sublist.refl _)
        (ih hnd' fun wl hm => h wl (List.mem_cons_of_mem e hm))

/-- A successful `_apply_one_world` for a non-branching plan keeps the
world-id list and only shrinks the set of live piece ids. -/
theorem applyOneWorld_ids (g : Game) (w : Int) (plan : MovePlan) (use : GlobalUse)
    (hw0 : plan.delta_w = 0) (ht0 : 0 ≤ plan.delta_t)
    (hnd : (g.worlds.map Prod.fst).Nodup) :
    ∀ g' use', applyOneWorld g w plan use = .ok (g', use') →
      g'.worlds.map Prod.fst = g.worlds.map Prod.fst ∧
        (gameIds g').Sublist (gameIds g) := by
  intro g' use' hap
  have hbr : ¬ (plan.delta_w ≠ 0 ∨ plan.delta_t < 0) := by
    push_neg
    exact ⟨hw0, ht0⟩
  simp only [applyOneWorld] at hap
  repeat
    first
    | exact Except.noConfusion hap
    | exact absurd (‹plan.delta_w ≠ 0 ∨ plan.delta_t < 0›) hbr
    | split at hap
  all_goals
    rename_i hexe
    injection hap with hap
    injection hap with hg hu
    subst hg
    constructor
    · exact updateWorld_map_fst g.worlds w _
    · show (worldsIds (updateWorld g.worlds w _)).Sublist (worldsIds g.worlds)
      apply worldsIds_update_sublist _ _ _ hnd
      intro wl hm
      rw [getWorld_of_mem hnd hm] at hexe ⊢
      rw [presentOf_append]
      exact execute_ok_src _ _ _ _ _ _ _ _ hexe

theorem staged_plan_nonbranching (g : Game) (hnb : nonBranchingStaged g = true) (w : Int) :
    ((getWorld g w).staged.getD defaultPlan).delta_w = 0 ∧
      0 ≤ ((getWorld g w).staged.getD defaultPlan).delta_t := by
  unfold getWorld
  cases hf : g.worlds.find? (fun e => e.1 == w) with
  | none => exact ⟨rfl, by decide⟩
  | some e =>
    have hmem := List.mem_of_find?_eq_some hf
    have hall := (List.all_eq_true.mp hnb) e hmem
    cases hs : e.2.staged with
    | none =>
      rw [show ((some e).map Prod.snd).getD defaultWorld = e.2 from rfl, hs]
      exact ⟨rfl, by decide⟩
    | some p =>
      rw [hs] at hall
      rw [show ((some e).map Prod.snd).getD defaultWorld = e.2 from rfl, hs]
      simp only [Bool.and_eq_true, beq_iff_eq, decide_eq_true_eq] at hall
      exact hall

theorem applyLoop_ids : ∀ (staged : List (Int × MovePlan)) (g : Game) (use : GlobalUse),
    (∀ e ∈ staged, e.2.delta_w = 0 ∧ 0 ≤ e.2.delta_t) →
    (g.worlds.map Prod.fst).Nodup →
    (loopGame (applyLoop g staged use)).worlds.map Prod.fst = g.worlds.map Prod.fst ∧
      (gameIds (loopGame (applyLoop g staged use))).Sublist (gameIds g) := by
  intro staged
  induction staged with
  | nil =>
    intro g use _ _
    exact ⟨rfl, List.Sublist.refl _⟩
  | cons e rest ih =>
    intro g use hpl hnd
    obtain ⟨w, plan⟩ := e
    have hunf : applyLoop g ((w, plan) :: rest) use =
        match applyOneWorld g w plan use with
        | .error er => .error (g, er)
        | .ok (g1, use1) => applyLoop g1 rest use1 := rfl
    rw [hunf]
    cases hap : applyOneWorld g w plan use with
    | error err => exact ⟨rfl, List.Sublist.refl _⟩
    | ok p =>
      obtain ⟨g1, use1⟩ := p
      have hone := hpl _ (List.mem_cons_self _ _)
      have h1 := applyOneWorld_ids g w plan use hone.1 hone.2 hnd g1 use1 hap
      have hnd1 : (g1.worlds.map Prod.fst).Nodup := by rw [h1.1]; exact hnd
      have h2 := ih g1 use1 (fun e he => hpl e (List.mem_cons_of_mem _ he)) hnd1
      exact ⟨h2.1.trans h1.1, h2.2.trans h1.2⟩

theorem worldsIds_final_map (ws : List (Int × WorldLine)) :
    worldsIds (ws.map fun e =>
      (e.1, { e.2 with
        history := e.2.history.dropLast ++ [collapseByCount collapseFuel (presentOf e.2)]
        staged := none
        lost := (kingCandidates (collapseByCount collapseFuel (presentOf e.2)) .black).length == 0 ||
                  (kingCandidates (collapseByCount collapseFuel (presentOf e.2)) .white).length == 0 })) =
      worldsIds ws := by
  unfold worldsIds
  induction ws with
  | nil => rfl
  | cons e t ih =>
    rw [List.map_cons, List.flatMap_cons, List.flatMap_cons, ih]
    congr 1
    show snapIds (presentOf { e.2 with
      history := e.2.history.dropLast ++ [collapseByCount collapseFuel (presentOf e.2)]
      staged := none
      lost := _ }) = _
    rw [show presentOf { e.2 with
        history := e.2.history.dropLast ++ [collapseByCount collapseFuel (presentOf e.2)]
        staged := none
        lost := (kingCandidates (collapseByCount collapseFuel (presentOf e.2)) .black).length == 0 ||
                  (kingCandidates (collapseByCount collapseFuel (presentOf e.2)) .white).length == 0 } =
        (e.2.history.dropLast ++ [collapseByCount collapseFuel (presentOf e.2)]).getLastD emptySnapshot
      from rfl]
    rw [getLastD_append_single]
    exact snapIds_collapseByCount _ _

theorem gameIds_mk (st : Settings) (t : Player) (m : String) (sw : Int) (ni : Nat)
    (ws : List (Int × WorldLine)) :
    gameIds (Game.mk st t m sw ni ws) = worldsIds ws := rfl

/-- Any commit whose staged plans are all non-branching preserves
distinctness of the live piece ids across all worlds' presents. -/
theorem commit_nonbranching_keeps_ids (g : Game)
    (hnd : (g.worlds.map Prod.fst).Nodup)
    (hnb : nonBranchingStaged g = true)
    (h : (gameIds g).Nodup) :
    (gameIds (commitTurn g).2).Nodup := by
  by_cases hmiss : ((sortedWorldIds g).any fun w => (getWorld g w).staged.isNone) = true
  · simp only [commitTurn, hmiss, if_true]
    exact h
  · simp only [commitTurn, hmiss, if_false]
    have hpl : ∀ e ∈ (sortedWorldIds g).map
        (fun w => (w, (getWorld g w).staged.getD defaultPlan)),
        e.2.delta_w = 0 ∧ 0 ≤ e.2.delta_t := by
      intro e he
      obtain ⟨w, _, rfl⟩ := List.mem_map.mp he
      exact staged_plan_nonbranching g hnb w
    have hloop := applyLoop_ids _ g zeroUse hpl hnd
    cases hres : applyLoop g
        ((sortedWorldIds g).map fun w => (w, (getWorld g w).staged.getD defaultPlan)) zeroUse with
    | error p =>
      obtain ⟨g1, err⟩ := p
      rw [hres] at hloop
      exact List.Nodup.sublist hloop.2 h
    | ok p =>
      obtain ⟨g1, use1⟩ := p
      rw [hres] at hloop
      cases hsf : (if (g1.settings.hand_mode == "global") = true then
          PIECE_TYPES.find? fun k => decide (globalHandTotal g1 k < use1 k) else none) with
      | some k =>
        simp only [hsf]
        exact List.Nodup.sublist hloop.2 h
      | none =>
        simp only [hsf]
        rw [gameIds_mk]
        refine (?_ : (worldsIds (g1.worlds.map fun e =>
          (e.1, { e.2 with
            history := e.2.history.dropLast ++ [collapseByCount collapseFuel (presentOf e.2)]
            staged := none
            lost := (kingCandidates (collapseByCount collapseFuel (presentOf e.2)) .black).length == 0 ||
                      (kingCandidates (collapseByCount collapseFuel (presentOf e.2)) .white).length == 0 }))).Nodup)
        rw [worldsIds_final_map]
        exact List.Nodup.sublist hloop.2 h

/-! ### Claim theorems (concrete evaluations) -/

/-- C1 (code bug): committing the staged non-branching move (4,6)→(4,5) in
the fresh game succeeds, yet the snapshot appended to world 0's history has
BOTH the origin (4,6) and the destination (4,5) empty, and empty hands —
the arrival was applied to the discarded second clone (`dummy`), so the
moved piece vanishes, where the claim/spec require `target == sourcePresent`
and the appended clone to contain the arriving piece at (4,5). -/
theorem commit_nonbranching_drops_arrival :
    (commitTurn gPlain).1 = true ∧
    (getWorld (commitTurn gPlain).2 0).history.length = 2 ∧
    getCell ((commitTurn gPlain).2.presentSnap 0).board 4 6 = none ∧
    getCell ((commitTurn gPlain).2.presentSnap 0).board 4 5 = none ∧
    ((commitTurn gPlain).2.presentSnap 0).hands = ⟨[], []⟩ := by
  decide

/-- C2 (code bug): on the two-world position `game2` (world 0 staged with a
valid move, world 1 with an off-board one) `commit_turn` returns failure,
but world 0's history has already grown from 1 to 2 snapshots — the commit
loop applies worlds eagerly and performs no rollback, violating the
all-or-nothing contract the claim states. -/
theorem commit_failure_retains_partial_apply :
    (commitTurn game2).1 = false ∧
    (commitTurn game2).2.message = "不合法手: 盤外" ∧
    (getWorld game2 0).history.length = 1 ∧
    (getWorld (commitTurn game2).2 0).history.length = 2 ∧
    (getWorld (commitTurn game2).2 1).history.length = 1 := by
  decide

/-- C3 counterexample: on `game3` the committed turn forces the `{歩, 王}`
pieces of BOTH worlds to the singleton `{王}` although the game-wide
(black, 王) candidate count is 2 before collapse and 2 after — never equal
to `limit(王) = 1`.  The Collapse Engine counts within each world's present
snapshot alone, not across the game as the claim states. -/
theorem collapse_not_gamewide_cex :
    (commitTurn game3).1 = true ∧
    (getCell ((commitTurn game3).2.presentSnap 0).board 0 0).map Piece.candidates =
      some ({PieceType.ou} : Finset PieceType) ∧
    (getCell ((commitTurn game3).2.presentSnap 1).board 0 0).map Piece.candidates =
      some ({PieceType.ou} : Finset PieceType) ∧
    specGameWideCount game3 .black .ou = 4 ∧
    specGameWideCount (commitTurn game3).2 .black .ou = 2 ∧
    PIECE_LIMIT .ou = 1 := by
  decide

/-- C4 counterexample: committing the branching move `planBr` from the
fresh game succeeds and leaves piece id 32 on TWO squares of the new
world's seed snapshot (origin (4,6) and destination (4,5)), so the live
piece ids over all present snapshots are no longer pairwise distinct
(although they are in the fresh game). -/
theorem branch_duplicates_ids_cex :
    (commitTurn gBranch).1 = true ∧
    (gameIds mkGame).Nodup ∧
    (gameIds (commitTurn gBranch).2).count 32 = 2 ∧
    ¬ (gameIds (commitTurn gBranch).2).Nodup := by
  decide

/-- C5 counterexample: after the committed turn of `gPlain`, 26 black
pieces still carry 王 in their candidate sets across the single world's
present board and hands — far above `limit(王) = 1`; the claimed
"at most limit(type)" bound does not hold on the code. -/
theorem limit_invariant_cex :
    (commitTurn gPlain).1 = true ∧
    specGameWideCount (commitTurn gPlain).2 .black .ou = 26 ∧
    PIECE_LIMIT .ou = 1 ∧
    ¬ (specGameWideCount (commitTurn gPlain).2 .black .ou ≤ PIECE_LIMIT .ou) := by
  decide

/-- C6 counterexample: in the initial position the square (4,7) already
holds the first player's own piece (id 41), so the claimed example move
(4,8)→(4,7) is rejected with 味方占有 and narrows nothing. -/
theorem scenarioB_move_rejected_cex :
    getCell initialSnapshot.board 4 7 = some ⟨41, .black, fullCands, false⟩ ∧
    (commitTurn (stage mkGame 0 plan87)).1 = false ∧
    (commitTurn (stage mkGame 0 plan87)).2.message = "不合法手: 味方占有" := by
  decide

/-- C7 counterexample: capturing the promoted white `{歩, 金}` piece of
`snap7` appends to black's hand a piece with `promoted = true` (copied
from the captured piece), not `false` as the claim states. -/
theorem capture_keeps_promoted_cex :
    exec7 = .ok out7 ∧
    out7.2.1.hands.get .black =
      [Piece.mk 2 Player.white ({PieceType.fu, PieceType.kin} : Finset PieceType) true] ∧
    (out7.2.1.hands.get .black).map Piece.promoted = [true] := by
  refine ⟨rfl, by decide, by decide⟩

/-- C8 counterexample: `king_candidates` on the initial snapshot returns 27
squares per player (every piece of the three occupied rows still carries
王), not the 9 squares the claim states. -/
theorem king_candidates_initial_cex :
    mkGame.presentSnap 0 = initialSnapshot ∧
    (kingCandidates initialSnapshot .black).length = 27 ∧
    (kingCandidates initialSnapshot .white).length = 27 ∧
    (kingCandidates initialSnapshot .black).length ≠ 9 := by
  decide

/-- C3 (amended): the Collapse Engine's count for an (owner, type) pair is
taken within one snapshot alone — that snapshot's board and hands — and a
forcing round rewrites candidate sets to the singleton `{type}` exactly
when that per-snapshot count equals `limit(type)`: no forcing otherwise,
and at equality every (owner, type) holder of the resulting snapshot is the
singleton. -/
theorem collapse_per_snapshot_threshold (s : Snapshot) (pl : Player) (kind : PieceType) :
    ((collectIds s pl kind).length ≠ PIECE_LIMIT kind → collapseStep s pl kind = s) ∧
    ((collectIds s pl kind).length = PIECE_LIMIT kind →
      (∀ p ∈ boardPieces (collapseStep s pl kind), p.owner = pl → kind ∈ p.candidates →
        p.candidates = ({kind} : Finset PieceType)) ∧
      ∀ p ∈ (collapseStep s pl kind).hands.get pl, kind ∈ p.candidates →
        p.candidates = ({kind} : Finset PieceType)) := by
  constructor
  · intro hne
    unfold collapseStep
    rw [if_neg hne]
  · intro heq
    have hstep : collapseStep s pl kind =
        { board := forceBoard s.board pl kind (collectIds s pl kind)
          hands := s.hands.set pl (forceHand (s.hands.get pl) kind (collectIds s pl kind)) } := by
      unfold collapseStep
      rw [if_pos heq]
    constructor
    · intro p hp hown hcand
      rw [hstep] at hp
      rw [boardPieces_forceBoard s.board
        (s.hands.set pl (forceHand (s.hands.get pl) kind (collectIds s pl kind)))
        s.hands pl kind (collectIds s pl kind)] at hp
      obtain ⟨q, hq, hqp⟩ := List.mem_map.mp hp
      by_cases hc : q.owner = pl ∧ q.id ∈ collectIds s pl kind ∧
          q.candidates ≠ ({kind} : Finset PieceType)
      · rw [← hqp]
        simp [forcePiece, hc]
      · have hpq : p = q := by rw [← hqp]; simp [forcePiece, hc]
        subst hpq
        have hid : p.id ∈ collectIds s pl kind :=
          mem_collectIds_of_board (s := s) (by exact hq) hown hcand
        by_contra hne
        exact hc ⟨hown, hid, hne⟩
    · intro p hp hcand
      rw [hstep] at hp
      simp only [Hands.get_set_self] at hp
      unfold forceHand at hp
      obtain ⟨q, hq, hqp⟩ := List.mem_map.mp hp
      by_cases hc : q.id ∈ collectIds s pl kind ∧ q.candidates ≠ ({kind} : Finset PieceType)
      · rw [← hqp]
        simp [hc]
      · have hpq : p = q := by rw [← hqp]; simp [hc]
        subst hpq
        have hid : p.id ∈ collectIds s pl kind := mem_collectIds_of_hand hq hcand
        by_contra hne
        exact hc ⟨hid, hne⟩

/-- Witness for C3 (amended): in the initial snapshot the (black, 王) count
is 27 ≠ 1, so the forcing round leaves the snapshot unchanged. -/
theorem collapse_per_snapshot_threshold_wit :
    collapseStep initialSnapshot .black .ou = initialSnapshot :=
  (collapse_per_snapshot_threshold initialSnapshot .black .ou).1 (by decide)

/-- C4 (amended): live piece ids are pairwise distinct in the freshly
constructed game, and any commit whose staged plans are all non-branching
(`delta_w = 0` and `delta_t ≥ 0`) preserves that distinctness; a committed
branching move, by contrast, duplicates ids (see the counterexample). -/
theorem ids_nodup_nonbranching :
    (gameIds mkGame).Nodup ∧
    ∀ g : Game, (g.worlds.map Prod.fst).Nodup → nonBranchingStaged g = true →
      (gameIds g).Nodup → (gameIds (commitTurn g).2).Nodup :=
  ⟨by decide, commit_nonbranching_keeps_ids⟩

/-- Witness for C4 (amended): ids stay distinct across the committed
non-branching turn of `gPlain`. -/
theorem ids_nodup_nonbranching_wit :
    (gameIds (commitTurn gPlain).2).Nodup :=
  ids_nodup_nonbranching.2 gPlain (by decide) (by decide) (by decide)

/-- C5 (amended): the per-snapshot (owner, type) candidate-holder count is
bounded only by the owner's piece count on that board plus the keyed hand's
length — it can exceed `limit(type)`; the limits (king=1, rook=1, bishop=1,
gold=2, silver=2, knight=2, lance=2, pawn=9) are the collapse thresholds,
not upper bounds. -/
theorem candidate_count_bound :
    (∀ (s : Snapshot) (pl : Player) (kind : PieceType),
      (collectIds s pl kind).length ≤
        (boardPieces s).countP (fun p => p.owner == pl) + (s.hands.get pl).length) ∧
    PIECE_LIMIT .ou = 1 ∧ PIECE_LIMIT .hisha = 1 ∧ PIECE_LIMIT .kaku = 1 ∧
    PIECE_LIMIT .kin = 2 ∧ PIECE_LIMIT .gin = 2 ∧ PIECE_LIMIT .keima = 2 ∧
    PIECE_LIMIT .kyousha = 2 ∧ PIECE_LIMIT .fu = 9 := by
  refine ⟨fun s pl kind => ?_, rfl, rfl, rfl, rfl, rfl, rfl, rfl, rfl⟩
  rw [collectIds_eq, List.length_append]
  have h1 : ((boardPieces s).filterMap
      (fun p => if p.owner = pl ∧ kind ∈ p.candidates then some p.id else none)).length ≤
      (boardPieces s).countP (fun p => p.owner == pl) := by
    refine length_filterMap_le_countP _ _ (fun a ha => ?_) _
    by_cases hc : a.owner = pl ∧ kind ∈ a.candidates
    · simpa using hc.1
    · rw [if_neg hc] at ha
      cases ha
  have h2 : ((s.hands.get pl).filterMap
      (fun p => if kind ∈ p.candidates then some p.id else none)).length ≤
      (s.hands.get pl).length := List.length_filterMap_le _ _
  omega

/-- C6 (amended): whenever `_execute` accepts a board move (any mode other
than "drop"), the piece placed at the destination of the target snapshot
carries exactly the subset of the origin piece's candidates whose type
allows the (dx, dy, dw, dt) displacement, the same id, and the plan's
promote flag.  (The claim's concrete example (4,8)→(4,7) is rejected —
see the counterexample; the witness runs the corrected example
(4,6)→(4,5), which narrows to {歩, 香, 金, 銀, 飛, 王}.) -/
theorem execute_narrows (st : Settings) (turn : Player) (src target : Snapshot)
    (plan : MovePlan) (piece : Piece) (branching : Bool) (use : GlobalUse)
    (out : Snapshot × Snapshot × GlobalUse)
    (hm : plan.mode ≠ "drop")
    (hwf : boardWF target.board)
    (hp : getCell src.board plan.from_xy.1 plan.from_xy.2 = some piece)
    (hex : execute st turn src target plan branching use = .ok out) :
    getCell out.2.1.board plan.to_xy.1 plan.to_xy.2 =
      some ⟨piece.id, piece.owner,
        piece.candidates.filter (fun c =>
          typeCanMove st c piece.owner (plan.to_xy.1 - plan.from_xy.1)
            (plan.to_xy.2 - plan.from_xy.2) plan.delta_w plan.delta_t
            plan.from_xy.1 plan.from_xy.2 src = true),
        plan.promote⟩ := by
  have h1 : (plan.mode == "drop") = false := beq_eq_false_iff_ne.mpr hm
  unfold execute at hex
  rw [h1] at hex
  simp only [Bool.false_eq_true, if_false] at hex
  rw [hp] at hex
  repeat
    first
    | exact Except.noConfusion hex
    | split at hex
  all_goals
    injection hex with hout
    subst hout
    simp only [Option.some.injEq] at *
    subst_vars
    have hb : ¬((!(decide (0 ≤ plan.to_xy.1) && decide (plan.to_xy.1 < 9) &&
        decide (0 ≤ plan.to_xy.2) && decide (plan.to_xy.2 < 9))) = true) := by assumption
    have hb' : (decide (0 ≤ plan.to_xy.1) && decide (plan.to_xy.1 < 9) &&
        decide (0 ≤ plan.to_xy.2) && decide (plan.to_xy.2 < 9)) = true := by
      simpa using hb
    simp only [Bool.and_eq_true, decide_eq_true_eq] at hb'
    obtain ⟨⟨⟨hx0, hx1⟩, hy0⟩, hy1⟩ := hb'
    cases hdst : getCell target.board plan.to_xy.1 plan.to_xy.2 <;>
      (try simp only [hdst]) <;>
      (refine getCell_setCell_self _ ?_ hx0 hx1 hy0 hy1
       repeat' apply boardWF_setCell
       exact hwf)

/-- Witness for C6 (amended): the corrected Scenario-B move, from (4,6) to
(4,5) in the initial position, narrows the moved piece (id 32) to exactly
{歩, 香, 金, 銀, 飛, 王}. -/
theorem execute_narrows_wit :
    getCell out65.2.1.board plan65.to_xy.1 plan65.to_xy.2 =
      some ⟨32, .black, cands65, false⟩ := by
  have h := execute_narrows defaultSettings .black initialSnapshot initialSnapshot
    plan65 piece65 false zeroUse out65 (by decide) (by decide) (by decide) rfl
  rw [h]
  decide

/-- C7 (amended): when a board move's destination in the target snapshot
holds a piece (necessarily an opposing one, or the move is rejected), the
piece appended to the mover's hand keeps the captured piece's id, its
candidates minus 王, and — copied verbatim, not reset — its promoted flag
(and its owner field). -/
theorem capture_appends (st : Settings) (turn : Player) (src target : Snapshot)
    (plan : MovePlan) (piece d : Piece) (branching : Bool) (use : GlobalUse)
    (out : Snapshot × Snapshot × GlobalUse)
    (hm : plan.mode ≠ "drop")
    (hp : getCell src.board plan.from_xy.1 plan.from_xy.2 = some piece)
    (hd : getCell target.board plan.to_xy.1 plan.to_xy.2 = some d)
    (hex : execute st turn src target plan branching use = .ok out) :
    out.2.1.hands.get turn =
      target.hands.get turn ++
        [Piece.mk d.id d.owner (d.candidates.erase .ou) d.promoted] := by
  have h1 : (plan.mode == "drop") = false := beq_eq_false_iff_ne.mpr hm
  unfold execute at hex
  rw [h1] at hex
  simp only [Bool.false_eq_true, if_false] at hex
  rw [hp, hd] at hex
  repeat
    first
    | exact Except.noConfusion hex
    | split at hex
  all_goals
    injection hex with hout
    subst hout
    simp only [Option.some.injEq] at *
    subst_vars
    first
    | exact absurd (‹some d = none› : some d = none) (by simp)
    | rw [Hands.get_set_self]

/-- Witness for C7 (amended): capturing the promoted `{歩, 金}` piece of
`snap7` appends it to black's hand with id 2, candidates `{歩, 金}` and
`promoted = true`. -/
theorem capture_appends_wit :
    out7.2.1.hands.get .black =
      snap7.hands.get .black ++
        [Piece.mk 2 Player.white
          (({PieceType.fu, PieceType.kin} : Finset PieceType).erase .ou) true] := by
  exact capture_appends defaultSettings .black snap7 snap7 plan43
    ⟨1, .black, fullCands, false⟩ ⟨2, .white, {PieceType.fu, PieceType.kin}, true⟩
    false zeroUse out7 (by decide) (by decide) (by decide) rfl

/-- C9 (confirmed): if any existing world has no staged plan, `commit_turn`
rejects with the missing-staged-input message and mutates nothing: the
returned game differs from the input only in `message` — histories, staged
plans, lost flags, the world set and the active player are all untouched. -/
theorem commit_missing_staged_rejects (g : Game)
    (hnd : (g.worlds.map Prod.fst).Nodup)
    (h : ∃ e ∈ g.worlds, e.2.staged = none) :
    commitTurn g = (false, { g with message := missingInputMsg }) := by
  obtain ⟨⟨w, wl⟩, hmem, hst⟩ := h
  have hw : w ∈ sortedWorldIds g := by
    unfold sortedWorldIds
    rw [(List.perm_insertionSort (· ≤ ·) (g.worlds.map Prod.fst)).mem_iff]
    exact List.mem_map_of_mem Prod.fst hmem
  have hany : ((sortedWorldIds g).any fun w => (getWorld g w).staged.isNone) = true := by
    rw [List.any_eq_true]
    exact ⟨w, hw, by rw [getWorld_of_mem hnd hmem]; rw [show wl.staged = none from hst]; rfl⟩
  simp only [commitTurn, hany, if_true]

/-- Witness for C9: the fresh game (world 0 unstaged) is rejected with the
missing-staged-input message and left otherwise unchanged. -/
theorem commit_missing_staged_rejects_wit :
    commitTurn mkGame = (false, { mkGame with message := missingInputMsg }) :=
  commit_missing_staged_rejects mkGame (by decide)
    ⟨(0, ⟨0, [initialSnapshot], none, false⟩), by decide, rfl⟩

/-- C10 (confirmed): `_execute` raises no invalid-mode error — a plan whose
mode string is anything other than "drop" behaves exactly like the same
plan with mode "move": it is executed down the board-move path, reading
`from_xy` as the origin. -/
theorem execute_mode_fallback (st : Settings) (turn : Player) (src target : Snapshot)
    (plan : MovePlan) (branching : Bool) (use : GlobalUse)
    (h : plan.mode ≠ "drop") :
    execute st turn src target plan branching use =
      execute st turn src target { plan with mode := "move" } branching use := by
  have h1 : (plan.mode == "drop") = false := beq_eq_false_iff_ne.mpr h
  have h2 : (("move" : String) == "drop") = false := rfl
  simp only [execute, h1, h2, Bool.false_eq_true, if_false]

/-- Witness for C10: a plan with mode "teleport" executes exactly as the
same plan with mode "move". -/
theorem execute_mode_fallback_wit :
    execute defaultSettings .black initialSnapshot initialSnapshot planWeird false zeroUse =
      execute defaultSettings .black initialSnapshot initialSnapshot
        { planWeird with mode := "move" } false zeroUse :=
  execute_mode_fallback defaultSettings .black initialSnapshot initialSnapshot planWeird
    false zeroUse (by decide)

/-- C8 (amended): the freshly constructed game holds the single world 0
with the initial snapshot: rows 0–2 white and rows 6–8 black with the full
8-type candidate set, rows 3–5 empty, both hands empty, and
`king_candidates` returns 27 squares per player. -/
theorem initial_snapshot_layout :
    (∀ y ∈ List.range 9, ∀ x ∈ List.range 9,
      (y < 3 →
        getCell initialSnapshot.board (x : Int) (y : Int) =
          some ⟨9 * y + x + 1, .white, fullCands, false⟩) ∧
      (3 ≤ y ∧ y < 6 → getCell initialSnapshot.board (x : Int) (y : Int) = none) ∧
      (6 ≤ y →
        getCell initialSnapshot.board (x : Int) (y : Int) =
          some ⟨27 + 9 * (y - 6) + x + 1, .black, fullCands, false⟩)) ∧
    initialSnapshot.hands = ⟨[], []⟩ ∧
    mkGame.worlds = [(0, ⟨0, [initialSnapshot], none, false⟩)] ∧
    fullCands.card = 8 ∧
    (kingCandidates initialSnapshot .black).length = 27 ∧
    (kingCandidates initialSnapshot .white).length = 27 := by
  decide

/-- Witness for C8 (amended): reading the layout theorem at row 6,
column 4 yields the black piece with id 32 and the full candidate set. -/
theorem initial_snapshot_layout_wit :
    getCell initialSnapshot.board (4 : Int) (6 : Int) =
      some ⟨32, .black, fullCands, false⟩ :=
  (initial_snapshot_layout.1 6 (by decide) 4 (by decide)).2.2 (by decide)

end QSS
